import Mathlib

/-!
Verification of the candidate scoring and list filter/sort core of the
hiring-manager application.

The JavaScript/TypeScript source is embedded shallowly:

* JS numbers are modelled as exact rationals (ℚ).  The one place where the
  source rounds (`toFixed(1)` in `calculateOverallScore`) is modelled by the
  ECMAScript definition of `Number.prototype.toFixed`: the integer n for
  which n / 10 is closest to the value, ties resolved towards the larger n.
* JS strings are modelled as Lean `String`; `toLowerCase`, `split` and
  `includes` are re-implemented structurally (ASCII case mapping, as used by
  the candidate data) so that concrete instances reduce inside the kernel.
* Firestore records are modelled as a JSON-like value type `JsonVal`; the
  dynamic field walk of the client-side sort in `getCandidates` operates on
  it.  Missing optional fields are modelled as absent keys.
* `Array.prototype.sort(cmp)` (a stable sort) is modelled as
  `List.mergeSort` with the relation `fun a b => cmp a b ≤ 0`.
-/

/-- A JSON-like value as stored in a Firestore candidate document and
manipulated by the dynamically-typed sort code of `getCandidates`
(src/unnamed/part_006).  `inf` / `ninf` are the JS numbers `Infinity` and
`-Infinity`, used by the sort as sentinels for missing values. -/
inductive JsonVal where
  | num (q : ℚ)
  | inf
  | ninf
  | str (s : String)
  | null
  | undef
  | obj (fields : List (String × JsonVal))
  | arr (elems : List JsonVal)

/-- First-match lookup in a JSON object, i.e. JS property access `o[k]`
on own properties; absent keys give `undefined`. -/
def jsonLookup (fields : List (String × JsonVal)) (k : String) : JsonVal :=
  match fields with
  | [] => .undef
  | (k', v) :: rest => if k' = k then v else jsonLookup rest k

/-- ASCII lower-casing of a character, the fragment of JS
`String.prototype.toLowerCase` exercised by the candidate data. -/
def jsCharToLower (c : Char) : Char :=
  if 65 ≤ c.toNat ∧ c.toNat ≤ 90 then Char.ofNat (c.toNat + 32) else c

/-- JS `String.prototype.toLowerCase` (ASCII fragment). -/
def jsToLower (s : String) : String :=
  ⟨s.data.map jsCharToLower⟩

/-- Does list `hay` start with list `sub`? -/
def startsWithList : List Char → List Char → Bool
  | [], _ => true
  | _ :: _, [] => false
  | a :: as, b :: bs => a = b && startsWithList as bs

/-- Does `hay` contain `sub` as a contiguous sublist? -/
def hasSubList (sub : List Char) : List Char → Bool
  | [] => startsWithList sub []
  | h :: t => startsWithList sub (h :: t) || hasSubList sub t

/-- JS `String.prototype.includes`: `jsIncludes s sub` is `s.includes(sub)`. -/
def jsIncludes (s sub : String) : Bool :=
  hasSubList sub.data s.data

/-- Helper for `jsSplit`: split a character list at every occurrence of
`sep`, accumulating the current (reversed) chunk. -/
def jsSplitAux (sep : Char) : List Char → List Char → List (List Char)
  | [], acc => [acc.reverse]
  | c :: rest, acc =>
    if c = sep then acc.reverse :: jsSplitAux sep rest []
    else jsSplitAux sep rest (c :: acc)

/-- JS `String.prototype.split` with a single-character separator, as used
by `sortOption.field.split('.')` in `getCandidates`.  `"".split('.')`
gives `[""]`, matching JS. -/
def jsSplit (s : String) (sep : Char) : List String :=
  (jsSplitAux sep s.data []).map fun l => ⟨l⟩

/-- The value of a JS number: finite, an infinity, or NaN. -/
inductive JNum where
  | nan
  | ninf
  | inf
  | fin (q : ℚ)

/-- The digits value of a character list (caller guarantees digits). -/
def digitsToNat (cs : List Char) : ℕ :=
  cs.foldl (fun n c => 10 * n + (c.toNat - 48)) 0

/-- JS `ToNumber` on a string: trimmed empty string is 0, decimal literals
(optional sign, integer part, optional fraction) and `Infinity` parse to
their value, everything else is NaN.  Hexadecimal and exponent forms are
omitted; they never arise from the candidate data this model sorts. -/
def jsStringToNumber (s : String) : JNum :=
  let t := s.trim.data
  if t = [] then .fin 0 else
  let sign : ℚ := if t.head? = some '-' then -1 else 1
  let body := if t.head? = some '-' ∨ t.head? = some '+' then t.tail else t
  if body = "Infinity".data then (if sign = 1 then .inf else .ninf) else
  let intPart := body.takeWhile Char.isDigit
  let rest := body.dropWhile Char.isDigit
  match rest with
  | [] => if intPart = [] then .nan else .fin (sign * digitsToNat intPart)
  | c :: fracs =>
    if c = '.' ∧ fracs.all Char.isDigit ∧ (intPart ≠ [] ∨ fracs ≠ []) then
      .fin (sign * ((digitsToNat intPart : ℚ) + digitsToNat fracs / 10 ^ fracs.length))
    else .nan

/-- Display string of a primitive JSON value, used when JS stringifies the
elements of an array (`Array.prototype.toString` joins with `","`; `null`
and `undefined` display as the empty string).  Nested arrays and
non-integer numbers never occur inside arrays of the candidate data, so
their display here is a placeholder. -/
def jsPrimDisplay : JsonVal → String
  | .num q => if q.den = 1 then toString q.num else toString q.num ++ "/" ++ toString q.den
  | .inf => "Infinity"
  | .ninf => "-Infinity"
  | .str s => s
  | .null => ""
  | .undef => ""
  | .obj _ => "[object Object]"
  | .arr _ => ""

/-- JS `ToPrimitive` with number hint, as applied by the relational
operators: plain objects stringify to `"[object Object]"`, arrays to their
comma-joined elements, primitives are unchanged. -/
def jsToPrimitive : JsonVal → JsonVal
  | .obj _ => .str "[object Object]"
  | .arr es => .str (String.intercalate "," (es.map jsPrimDisplay))
  | v => v

/-- JS `ToNumber` on a primitive value. -/
def jsToNumber : JsonVal → JNum
  | .num q => .fin q
  | .inf => .inf
  | .ninf => .ninf
  | .null => .fin 0
  | .undef => .nan
  | .str s => jsStringToNumber s
  | .obj _ => .nan
  | .arr _ => .nan

/-- Strict `<` on JS numeric values; any comparison with NaN is false. -/
def jnumLt : JNum → JNum → Bool
  | .nan, _ => false
  | _, .nan => false
  | .ninf, .ninf => false
  | .ninf, _ => true
  | _, .ninf => false
  | .inf, _ => false
  | .fin _, .inf => true
  | .fin a, .fin b => a < b

/-- The JS `<` operator on two values: both operands go through
`ToPrimitive`; two strings compare lexicographically, otherwise both are
converted to numbers. -/
def jsLt (a b : JsonVal) : Bool :=
  match jsToPrimitive a, jsToPrimitive b with
  | .str s, .str t => s < t
  | pa, pb => jnumLt (jsToNumber pa) (jsToNumber pb)

/-! ## Data model (src/unnamed/part: types.ts) -/

/-- Which AI backend produced an analysis (types.ts `AIModel`). -/
inductive AIModel where
  | openai
  | gemini
  deriving DecidableEq

/-- types.ts `AIAnalysis`.  `suggestedScores` is kept as the raw JSON
object (an association list), since the routes pass it through without
reshaping. -/
structure AIAnalysis where
  summary : Option String
  extractedSkills : Option (List String)
  extractedEducation : Option (List String)
  extractedExperience : Option (List String)
  suggestedScores : Option (List (String × ℚ))
  model : AIModel
  generatedAt : ℚ
  deriving DecidableEq

/-- types.ts `DocumentInfo`. -/
structure DocumentInfo where
  id : String
  name : String
  url : String
  type : String
  uploadedAt : ℚ
  aiAnalysis : Option AIAnalysis
  deriving DecidableEq

/-- types.ts `CandidateDocuments`.  The optional `notes` / `transcripts`
arrays are modelled as lists, the absent array being `[]`; `uploadCandidateDocument`
initialises a missing array to `[]` before pushing, so the two are
indistinguishable to the operations modelled here. -/
structure CandidateDocuments where
  resume : Option DocumentInfo
  coverLetter : Option DocumentInfo
  notes : List DocumentInfo
  transcripts : List DocumentInfo
  deriving DecidableEq

/-- types.ts `Candidate.status` values. -/
inductive CandidateStatus where
  | active
  | inactive
  deriving DecidableEq

/-- types.ts `Candidate`.  `scores` keeps its JSON-object form (an ordered
association list) because `calculateOverallScore` iterates it with
`for..in` and the sort walks it dynamically. -/
structure Candidate where
  id : String
  name : String
  email : String
  phone : Option String
  linkedin : Option String
  github : Option String
  pictureUrl : Option String
  starRating : ℚ
  status : CandidateStatus
  createdAt : ℚ
  updatedAt : ℚ
  scores : List (String × ℚ)
  overallScore : ℚ
  documents : CandidateDocuments
  deriving DecidableEq

/-- The status filter of types.ts `FilterOptions`. -/
inductive StatusChoice where
  | active
  | inactive
  | all
  deriving DecidableEq

/-- types.ts `FilterOptions`. -/
structure FilterOptions where
  status : Option StatusChoice
  minScore : Option ℚ
  maxScore : Option ℚ
  searchTerm : Option String

/-- types.ts `SortOption.direction`. -/
inductive SortDir where
  | asc
  | desc
  deriving DecidableEq

/-- types.ts `SortOption`. -/
structure SortOption where
  field : String
  direction : SortDir

/-- The JSON string stored in the `status` field. -/
def CandidateStatus.toStr : CandidateStatus → String
  | .active => "Active"
  | .inactive => "Inactive"

/-- JSON form of an optional string field: absent key when missing. -/
def optField (k : String) : Option String → List (String × JsonVal)
  | some s => [(k, .str s)]
  | none => []

/-- JSON form of an `AIAnalysis` value. -/
def AIAnalysis.toJson (a : AIAnalysis) : JsonVal :=
  .obj ((optField "summary" a.summary) ++
    (match a.extractedSkills with
     | some l => [("extractedSkills", JsonVal.arr (l.map .str))]
     | none => []) ++
    (match a.extractedEducation with
     | some l => [("extractedEducation", JsonVal.arr (l.map .str))]
     | none => []) ++
    (match a.extractedExperience with
     | some l => [("extractedExperience", JsonVal.arr (l.map .str))]
     | none => []) ++
    (match a.suggestedScores with
     | some m => [("suggestedScores", JsonVal.obj (m.map fun p => (p.1, .num p.2)))]
     | none => []) ++
    [("model", .str (match a.model with | .openai => "openai" | .gemini => "gemini")),
     ("generatedAt", .num a.generatedAt)])

/-- JSON form of a `DocumentInfo` value. -/
def DocumentInfo.toJson (d : DocumentInfo) : JsonVal :=
  .obj ([("id", .str d.id), ("name", .str d.name), ("url", .str d.url),
    ("type", .str d.type), ("uploadedAt", .num d.uploadedAt)] ++
    (match d.aiAnalysis with
     | some a => [("aiAnalysis", a.toJson)]
     | none => []))

/-- JSON form of a `CandidateDocuments` value. -/
def CandidateDocuments.toJson (d : CandidateDocuments) : JsonVal :=
  .obj ((match d.resume with
     | some r => [("resume", r.toJson)]
     | none => []) ++
    (match d.coverLetter with
     | some r => [("coverLetter", r.toJson)]
     | none => []) ++
    [("notes", .arr (d.notes.map DocumentInfo.toJson)),
     ("transcripts", .arr (d.transcripts.map DocumentInfo.toJson))])

/-- The Firestore document of a candidate, as the client-side sort of
`getCandidates` sees it when walking dot-paths across the record. -/
def Candidate.toJson (c : Candidate) : JsonVal :=
  .obj ([("id", .str c.id), ("name", .str c.name), ("email", .str c.email)] ++
    optField "phone" c.phone ++ optField "linkedin" c.linkedin ++
    optField "github" c.github ++ optField "pictureUrl" c.pictureUrl ++
    [("starRating", .num c.starRating),
     ("status", .str c.status.toStr),
     ("createdAt", .num c.createdAt),
     ("updatedAt", .num c.updatedAt),
     ("scores", .obj (c.scores.map fun p => (p.1, .num p.2))),
     ("overallScore", .num c.overallScore),
     ("documents", c.documents.toJson)])

/-! ## Overall score calculation (src/unnamed/part_006, lines 161-186) -/

/-- The `DEFAULT_WEIGHTS` constant from src/unnamed/part_006. -/
def DEFAULT_WEIGHTS : List (String × ℚ) :=
  [("technicalSkills", 2/5), ("communicationSkills", 1/4),
   ("experience", 1/4), ("culturalFit", 1/10)]

/-- Lookup of `weights[category]` as an optional value (`none` models JS
`undefined` for an absent key). -/
def lookupWeight (weights : List (String × ℚ)) (k : String) : Option ℚ :=
  (weights.find? fun p => p.1 = k).map (·.2)

/-- One iteration of the `for (const category in scores)` loop of
`calculateOverallScore`: the accumulator is `(weightedScore, totalWeight)`.
The guard `if (weights[category])` is a JS truthiness test, so an absent
key and a weight of exactly 0 are both skipped. -/
def scoreStep (weights : List (String × ℚ)) (acc : ℚ × ℚ) (p : String × ℚ) : ℚ × ℚ :=
  match lookupWeight weights p.1 with
  | some w => if w = 0 then acc else (acc.1 + p.2 * w, acc.2 + w)
  | none => acc

/-- ECMAScript `Number.prototype.toFixed(1)` on an exact value, followed by
`parseFloat`: the result is `n / 10` for the integer `n` with `n / 10`
closest to the input, ties resolved towards the larger `n` -- which is
`⌊q·10 + 1/2⌋ / 10`. -/
def jsToFixed1 (q : ℚ) : ℚ :=
  (Rat.floor (q * 10 + 1/2) : ℚ) / 10

/-- The function `calculateOverallScore` from src/unnamed/part_006 (lines 169-186). -/
def calculateOverallScore (scores weights : List (String × ℚ)) : ℚ :=
  let acc := scores.foldl (scoreStep weights) (0, 0)
  if acc.2 = 0 then 0 else jsToFixed1 (acc.1 / acc.2)

/-- Checked division: the error branch models a division-by-zero hazard. -/
def checkedDiv (a b : ℚ) : Except String ℚ :=
  if b = 0 then .error "division by zero" else .ok (a / b)

/-- A copy of `calculateOverallScore` with its final division made explicitly
fallible, to express that the division-by-zero branch is unreachable. -/
def calculateOverallScoreChecked (scores weights : List (String × ℚ)) :
    Except String ℚ :=
  let acc := scores.foldl (scoreStep weights) (0, 0)
  if acc.2 = 0 then .ok 0
  else (checkedDiv acc.1 acc.2).map jsToFixed1

/-- Modelled from the spec (section 4.1): the weighted mean over exactly
the category keys present in both maps -- the sum of score × weight over
those keys divided by the sum of those weights -- rounded to one decimal,
and 0 when the total applied weight is zero.  Written from the spec's
words, to be compared with `calculateOverallScore`. -/
def overallScoreSpec (scores weights : List (String × ℚ)) : ℚ :=
  let both := scores.filter fun p => (lookupWeight weights p.1).isSome
  let sum := (both.map fun p => p.2 * (lookupWeight weights p.1).getD 0).sum
  let total := (both.map fun p => (lookupWeight weights p.1).getD 0).sum
  if total = 0 then 0 else jsToFixed1 (sum / total)

/-- Round-half-away-from-zero to one decimal place, the rounding named by
the spec (section 4.1). -/
def roundHalfAwayTenths (q : ℚ) : ℚ :=
  if 0 ≤ q then (Rat.floor (q * 10 + 1/2) : ℚ) / 10
  else -((Rat.floor (-q * 10 + 1/2) : ℚ) / 10)

/-! ## Candidate list filtering and client-side sorting
(`getCandidates`, src/unnamed/part_006, lines 222-333) -/

/-- The Firestore `where('status','==',...)` constraint added when a status
filter other than `'All'` is given (lines 229-231), modelled as an
order-preserving filter over the candidate collection. -/
def applyStatusConstraint (status : Option StatusChoice) (l : List Candidate) :
    List Candidate :=
  match status with
  | some s =>
    if s = .all then l
    else l.filter fun c =>
      match s with
      | .active => c.status = CandidateStatus.active
      | .inactive => c.status = CandidateStatus.inactive
      | .all => true
  | none => l

/-- The searchable fields of a candidate (lines 272-279): name, email,
phone, linkedin, github and every note's name, with missing fields and
empty strings removed by `.filter(Boolean)`. -/
def searchableFields (c : Candidate) : List String :=
  (([some c.name, some c.email, c.phone, c.linkedin, c.github] ++
    c.documents.notes.map fun n => some n.name).filterMap id).filter
    fun s => s ≠ ""

/-- The keyword predicate of the search filter (lines 281-283). -/
def matchesKeyword (keyword : String) (c : Candidate) : Bool :=
  (searchableFields c).any fun field => jsIncludes (jsToLower field) keyword

/-- The client-side keyword search (lines 268-285); the guard
`if (filterOptions?.searchTerm)` is a truthiness test, so an absent or
empty search term leaves the collection unchanged. -/
def applySearchFilter (searchTerm : Option String) (l : List Candidate) :
    List Candidate :=
  match searchTerm with
  | some t => if t = "" then l else l.filter (matchesKeyword (jsToLower t))
  | none => l

/-- The minimum-score filter (lines 288-290). -/
def applyMinScoreFilter (minScore : Option ℚ) (l : List Candidate) :
    List Candidate :=
  match minScore with
  | some m => l.filter fun c => m ≤ c.overallScore
  | none => l

/-- The maximum-score filter (lines 292-294). -/
def applyMaxScoreFilter (maxScore : Option ℚ) (l : List Candidate) :
    List Candidate :=
  match maxScore with
  | some m => l.filter fun c => c.overallScore ≤ m
  | none => l

/-- The sort fields handled server-side (lines 237 and 297); all other
fields trigger the client-side sort. -/
def simpleSortFields : List String := ["name", "email", "createdAt", "updatedAt"]

/-- One step of the dot-path walk (lines 305-312): a truthy object or
array is indexed; any other value (numbers, strings, `null`, `undefined`)
fails the `fieldA && typeof fieldA === 'object'` guard and is left
unchanged.  Array indexing covers canonical numeric indices and `length`;
prototype-chain properties are not modelled. -/
def resolveStep (v : JsonVal) (part : String) : JsonVal :=
  match v with
  | .obj fields => jsonLookup fields part
  | .arr elems =>
    if part = "length" then .num elems.length
    else
      match part.data with
      | [] => .undef
      | c :: cs =>
        if (c :: cs).all Char.isDigit ∧ (cs = [] ∨ c ≠ '0') then
          (elems.get? (digitsToNat (c :: cs))).getD .undef
        else .undef
  | v => v

/-- The full dot-path walk of the comparator (lines 303-312). -/
def resolvePath (v : JsonVal) (parts : List String) : JsonVal :=
  parts.foldl resolveStep v

/-- The value the comparator extracts from a candidate for a sort field
(`sortOption.field.split('.')` followed by the walk). -/
def resolvedValue (c : Candidate) (field : String) : JsonVal :=
  resolvePath c.toJson (jsSplit field '.')

/-- The replacement of `undefined`/`null` by an infinity sentinel
(lines 314-316): `-Infinity` when ascending, `+Infinity` when descending. -/
def sentinelize (dir : SortDir) (v : JsonVal) : JsonVal :=
  match v with
  | .undef => if dir = .asc then .ninf else .inf
  | .null => if dir = .asc then .ninf else .inf
  | v => v

/-- The comparator body (lines 318-323) on two already-resolved values;
JS `a > b` is `b < a`. -/
def jsCompare (dir : SortDir) (va vb : JsonVal) : Int :=
  match dir with
  | .asc => if jsLt va vb then -1 else if jsLt vb va then 1 else 0
  | .desc => if jsLt vb va then -1 else if jsLt va vb then 1 else 0

/-- The whole comparator of the client-side sort (lines 298-324) as the
`le` relation `comparator a b ≤ 0` that a stable sort realises. -/
def sortLE (so : SortOption) (a b : Candidate) : Bool :=
  jsCompare so.direction
    (sentinelize so.direction (resolvedValue a so.field))
    (sentinelize so.direction (resolvedValue b so.field)) ≤ 0

/-- The client-side sort (lines 296-325): applied only when a sort option
names a field outside `simpleSortFields`; `Array.prototype.sort` is stable
and is modelled by `List.mergeSort`. -/
def applyClientSort (so : Option SortOption) (l : List Candidate) :
    List Candidate :=
  match so with
  | some s =>
    if s.field ∈ simpleSortFields then l
    else l.mergeSort (sortLE s)
  | none => l

/-- The client-side filter and sort pipeline of `getCandidates` in source
order: status constraint, keyword search, score bounds, client-side sort. -/
def getCandidatesPipeline (l : List Candidate) (fo : Option FilterOptions)
    (so : Option SortOption) : List Candidate :=
  applyClientSort so
    (applyMaxScoreFilter (fo.bind (·.maxScore))
      (applyMinScoreFilter (fo.bind (·.minScore))
        (applySearchFilter (fo.bind (·.searchTerm))
          (applyStatusConstraint (fo.bind (·.status)) l))))

/-! ## AI analyze-document response validation
(src/src/app/api/openai/analyze-document/route.ts lines 102-114 and the
Gemini route in src/unnamed/part_006 lines 101-113) -/

/-- The parsed JSON object of an AI analysis response, before validation.
Each field is optional: `none` models an absent (or `null`) field, which
is falsy in the `||` defaults of the routes.  (The other falsy JSON values
- `""`, `0`, `false` - coincide with their defaults or do not typecheck
against the consumed shape, so `Option` captures the `||` behaviour for
the shapes the routes consume.) -/
structure RawAnalysisResult where
  summary : Option String
  extractedSkills : Option (List String)
  extractedEducation : Option (List String)
  extractedExperience : Option (List String)
  suggestedScores : Option (List (String × ℚ))

/-- The validated response the routes return. -/
structure ValidatedAnalysisResult where
  summary : String
  extractedSkills : List String
  extractedEducation : List String
  extractedExperience : List String
  suggestedScores : List (String × ℚ)
  deriving DecidableEq

/-- The all-fives default `suggestedScores` object of both routes. -/
def defaultSuggestedScores : List (String × ℚ) :=
  [("technicalSkills", 5), ("communicationSkills", 5),
   ("experience", 5), ("culturalFit", 5)]

/-- The `validatedResult` construction of the OpenAI analyze-document
route (route.ts lines 103-114). -/
def openaiValidate (r : RawAnalysisResult) : ValidatedAnalysisResult :=
  { summary := r.summary.getD ""
    extractedSkills := r.extractedSkills.getD []
    extractedEducation := r.extractedEducation.getD []
    extractedExperience := r.extractedExperience.getD []
    suggestedScores := r.suggestedScores.getD defaultSuggestedScores }

/-- The `validatedResult` construction of the Gemini analyze-document
route (src/unnamed/part_006 lines 102-113); textually identical to the
OpenAI one. -/
def geminiValidate (r : RawAnalysisResult) : ValidatedAnalysisResult :=
  { summary := r.summary.getD ""
    extractedSkills := r.extractedSkills.getD []
    extractedEducation := r.extractedEducation.getD []
    extractedExperience := r.extractedExperience.getD []
    suggestedScores := r.suggestedScores.getD defaultSuggestedScores }

/-- Lookup of a category in a raw scores object. -/
def lookupScore (scores : List (String × ℚ)) (k : String) : Option ℚ :=
  (scores.find? fun p => p.1 = k).map (·.2)

/-- The four categories of the `CategoryScores` shape. -/
def categoryKeys : List String :=
  ["technicalSkills", "communicationSkills", "experience", "culturalFit"]

/-! ## Client-side active filter of the home page
(src/unnamed/part_004, `loadCandidates`, lines 56-60) -/

/-- The statement `if (data.length > 0 && data.some(c => c.status !== 'Active')) data =
data.filter(c => c.status === 'Active')`. -/
def filterToActiveClient (data : List Candidate) : List Candidate :=
  if 0 < data.length ∧ data.any fun c => c.status ≠ CandidateStatus.active then
    data.filter fun c => c.status = CandidateStatus.active
  else data

/-! ## Document upload (src/unnamed/part_006, `uploadCandidateDocument`,
lines 450-508) -/

/-- The document type union of `uploadCandidateDocument`. -/
inductive DocumentType where
  | resume
  | coverLetter
  | notes
  | transcripts
  deriving DecidableEq

/-- The update `uploadCandidateDocument` applies to the candidate's
`documents` collection (lines 488-498): resume and cover letter replace
the existing document of that type; notes and transcripts push onto the
array (initialising a missing array to `[]` first). -/
def uploadCandidateDocument (documents : CandidateDocuments)
    (documentType : DocumentType) (documentInfo : DocumentInfo) :
    CandidateDocuments :=
  match documentType with
  | .resume => { documents with resume := some documentInfo }
  | .coverLetter => { documents with coverLetter := some documentInfo }
  | .notes => { documents with notes := documents.notes ++ [documentInfo] }
  | .transcripts =>
    { documents with transcripts := documents.transcripts ++ [documentInfo] }

/-! ## Theorems -/

/-- The `for..in` loop of `calculateOverallScore` accumulates exactly the
sums over the categories present in both maps (zero weights are skipped by
the truthiness guard but contribute nothing to either sum). -/
theorem scoreStep_foldl (w s : List (String × ℚ)) (a b : ℚ) :
    s.foldl (scoreStep w) (a, b) =
      (a + ((s.filter fun p => (lookupWeight w p.1).isSome).map
          fun p => p.2 * (lookupWeight w p.1).getD 0).sum,
       b + ((s.filter fun p => (lookupWeight w p.1).isSome).map
          fun p => (lookupWeight w p.1).getD 0).sum) := by
  induction s generalizing a b with
  | nil => simp
  | cons p rest ih =>
    cases hw : lookupWeight w p.1 with
    | none => simp [List.foldl, scoreStep, hw, ih]
    | some wv =>
      by_cases h0 : wv = 0
      · subst h0
        simp [List.foldl, scoreStep, hw, ih]
      · rw [List.foldl_cons, scoreStep, hw]
        simp only [h0, if_false]
        rw [ih]
        simp [hw]
        constructor <;> ring

/-- C1: for every CategoryScores map and every CategoryWeights map,
`calculateOverallScore` returns the weighted mean over exactly the category
keys present in both maps -- the sum of score × weight divided by the sum
of the weights applied, rounded to one decimal place -- with categories
lacking a matching weight ignored, and 0 when the total applied weight is
zero. -/
theorem calculateOverallScore_eq_spec (scores weights : List (String × ℚ)) :
    calculateOverallScore scores weights = overallScoreSpec scores weights := by
  unfold calculateOverallScore overallScoreSpec
  rw [scoreStep_foldl]
  simp

/-- The example scores of spec section 8: (technicalSkills 8,
communicationSkills 6, experience 7, culturalFit 9). -/
def exampleScores : List (String × ℚ) :=
  [("technicalSkills", 8), ("communicationSkills", 6),
   ("experience", 7), ("culturalFit", 9)]

/-- C2: the rounding of `calculateOverallScore` agrees with
round-half-away-from-zero at one decimal on the nonnegative values the
score computation produces, and on the spec's example -- scores (8,6,7,9)
with weights (0.4, 0.25, 0.25, 0.1) -- the exact weighted sum is 7.35 and
the returned overall score is 7.4. -/
theorem calculateOverallScore_rounding :
    (∀ q : ℚ, 0 ≤ q → jsToFixed1 q = roundHalfAwayTenths q) ∧
      (exampleScores.foldl (scoreStep DEFAULT_WEIGHTS) (0, 0)).1 = 147/20 ∧
      calculateOverallScore exampleScores DEFAULT_WEIGHTS = 74/10 := by
  refine ⟨fun q h => ?_, ?_, ?_⟩
  · rw [roundHalfAwayTenths, if_pos h, jsToFixed1]
  · simp +decide [exampleScores, DEFAULT_WEIGHTS, List.foldl, scoreStep,
      lookupWeight, List.find?]
    norm_num
  · simp +decide [calculateOverallScore, exampleScores, DEFAULT_WEIGHTS,
      List.foldl, scoreStep, lookupWeight, List.find?]
    norm_num [jsToFixed1, Rat.floor]

/-- Witness for `calculateOverallScore_rounding`: the rounding agreement
instantiated at the concrete value 7. -/
theorem calculateOverallScore_rounding_witness :
    (0:ℚ) ≤ 7 ∧ jsToFixed1 7 = roundHalfAwayTenths 7 :=
  ⟨by decide, calculateOverallScore_rounding.1 7 (by decide)⟩

/-- C9: `calculateOverallScore` never reaches the division with a zero
divisor: the checked variant, whose division returns an error on a zero
denominator, always returns `.ok` of the unchecked result. -/
theorem calculateOverallScore_no_div_by_zero
    (scores weights : List (String × ℚ)) :
    calculateOverallScoreChecked scores weights =
      .ok (calculateOverallScore scores weights) := by
  unfold calculateOverallScoreChecked calculateOverallScore
  by_cases h : (scores.foldl (scoreStep weights) (0, 0)).2 = 0
  · rw [if_pos h, if_pos h]
  · rw [if_neg h, if_neg h, checkedDiv, if_neg h]
    rfl

/-- An empty documents collection. -/
def emptyDocs : CandidateDocuments :=
  { resume := none, coverLetter := none, notes := [], transcripts := [] }

/-- A candidate with the given name and overall score and no other data. -/
def candWithScore (nm : String) (q : ℚ) : Candidate :=
  { id := nm, name := nm, email := "", phone := none, linkedin := none,
    github := none, pictureUrl := none, starRating := 0, status := .active,
    createdAt := 0, updatedAt := 0, scores := [], overallScore := q,
    documents := emptyDocs }

/-- C7: score-bound filtering is inclusive on both ends: a minimum keeps
exactly the candidates with overall score ≥ min, a maximum keeps exactly
those with overall score ≤ max, both together keep exactly the closed
interval; and on scores [65,70,89,90] with min=70, max=89 exactly the
candidates scoring 70 and 89 remain, in order. -/
theorem scoreBounds_inclusive :
    (∀ (l : List Candidate) (m : ℚ),
      applyMinScoreFilter (some m) l =
        l.filter fun c => m ≤ c.overallScore) ∧
    (∀ (l : List Candidate) (M : ℚ),
      applyMaxScoreFilter (some M) l =
        l.filter fun c => c.overallScore ≤ M) ∧
    (∀ (l : List Candidate) (m M : ℚ),
      applyMaxScoreFilter (some M) (applyMinScoreFilter (some m) l) =
        l.filter fun c => m ≤ c.overallScore ∧ c.overallScore ≤ M) ∧
    applyMaxScoreFilter (some 89) (applyMinScoreFilter (some 70)
        [candWithScore "a" 65, candWithScore "b" 70,
         candWithScore "c" 89, candWithScore "d" 90]) =
      [candWithScore "b" 70, candWithScore "c" 89] := by
  refine ⟨fun l m => rfl, fun l M => rfl, fun l m M => ?_, by decide⟩
  rw [applyMinScoreFilter, applyMaxScoreFilter, List.filter_filter]
  apply List.filter_congr
  intro c _
  simp [Bool.and_comm]

/-- C8: the status constraint keeps exactly the candidates with the given
status, preserving relative order (it is an order-preserving filter); a
filter of `All` or an omitted filter imposes no constraint; and the
client-side fallback of the home page (`loadCandidates`) keeps exactly the
Active candidates. -/
theorem statusFilter_exact :
    (∀ l : List Candidate,
      applyStatusConstraint (some .active) l =
        l.filter fun c => c.status = CandidateStatus.active) ∧
    (∀ l : List Candidate,
      applyStatusConstraint (some .inactive) l =
        l.filter fun c => c.status = CandidateStatus.inactive) ∧
    (∀ l : List Candidate, applyStatusConstraint (some .all) l = l) ∧
    (∀ l : List Candidate, applyStatusConstraint none l = l) ∧
    (∀ l : List Candidate,
      filterToActiveClient l =
        l.filter fun c => c.status = CandidateStatus.active) := by
  refine ⟨fun l => rfl, fun l => rfl, fun l => rfl, fun l => rfl, fun l => ?_⟩
  rw [filterToActiveClient]
  split_ifs with h
  · rfl
  · rcases l with _ | ⟨c, cs⟩
    · rfl
    · rw [eq_comm, List.filter_eq_self]
      intro a ha
      by_contra hne
      exact h ⟨by simp, List.any_eq_true.mpr ⟨a, ha, by simpa using hne⟩⟩

/-- C10: `uploadCandidateDocument` keeps the at-most-one invariant for
resumes and cover letters by replacing the existing document of that type,
and appends to the end of the notes/transcripts lists, leaving every other
component (and the order of existing entries) unchanged. -/
theorem uploadCandidateDocument_replace_or_append
    (d : CandidateDocuments) (i : DocumentInfo) :
    ((uploadCandidateDocument d .resume i).resume = some i ∧
     (uploadCandidateDocument d .resume i).coverLetter = d.coverLetter ∧
     (uploadCandidateDocument d .resume i).notes = d.notes ∧
     (uploadCandidateDocument d .resume i).transcripts = d.transcripts) ∧
    ((uploadCandidateDocument d .coverLetter i).coverLetter = some i ∧
     (uploadCandidateDocument d .coverLetter i).resume = d.resume ∧
     (uploadCandidateDocument d .coverLetter i).notes = d.notes ∧
     (uploadCandidateDocument d .coverLetter i).transcripts = d.transcripts) ∧
    ((uploadCandidateDocument d .notes i).notes = d.notes ++ [i] ∧
     (uploadCandidateDocument d .notes i).resume = d.resume ∧
     (uploadCandidateDocument d .notes i).coverLetter = d.coverLetter ∧
     (uploadCandidateDocument d .notes i).transcripts = d.transcripts) ∧
    ((uploadCandidateDocument d .transcripts i).transcripts =
        d.transcripts ++ [i] ∧
     (uploadCandidateDocument d .transcripts i).resume = d.resume ∧
     (uploadCandidateDocument d .transcripts i).coverLetter = d.coverLetter ∧
     (uploadCandidateDocument d .transcripts i).notes = d.notes) :=
  ⟨⟨rfl, rfl, rfl, rfl⟩, ⟨rfl, rfl, rfl, rfl⟩,
   ⟨rfl, rfl, rfl, rfl⟩, ⟨rfl, rfl, rfl, rfl⟩⟩

/-- A raw AI response whose `suggestedScores` object is present but lacks
three of the four categories. -/
def sparseRaw : RawAnalysisResult :=
  { summary := none, extractedSkills := none, extractedEducation := none,
    extractedExperience := none,
    suggestedScores := some [("technicalSkills", 8)] }

/-- A raw AI response with no `suggestedScores` field at all. -/
def emptyRaw : RawAnalysisResult :=
  { summary := none, extractedSkills := none, extractedEducation := none,
    extractedExperience := none, suggestedScores := none }

/-- C5 counterexample: on a response whose `suggestedScores` object is
present but missing `communicationSkills`, both routes pass the partial
object through -- the missing category is not defaulted to 5 (its lookup
in the validated result is `none`), contradicting the claimed field-wise
validation against the CategoryScores shape. -/
theorem suggestedScores_sparse_not_defaulted_cex :
    "communicationSkills" ∈ categoryKeys ∧
    lookupScore (openaiValidate sparseRaw).suggestedScores
      "communicationSkills" = none ∧
    lookupScore (geminiValidate sparseRaw).suggestedScores
      "communicationSkills" = none := by
  refine ⟨by decide, rfl, rfl⟩

/-- C5 amended: both analyze-document routes default the entire
`suggestedScores` object to all-5s only when the field is absent (falsy);
a present object is passed through unchanged, with no per-field
validation. -/
theorem suggestedScores_default_whole_object (r : RawAnalysisResult) :
    (r.suggestedScores = none →
      (openaiValidate r).suggestedScores = defaultSuggestedScores ∧
      (geminiValidate r).suggestedScores = defaultSuggestedScores) ∧
    (∀ m, r.suggestedScores = some m →
      (openaiValidate r).suggestedScores = m ∧
      (geminiValidate r).suggestedScores = m) := by
  constructor
  · intro h
    constructor <;> simp [openaiValidate, geminiValidate, h]
  · intro m h
    constructor <;> simp [openaiValidate, geminiValidate, h]

/-- Witness for `suggestedScores_default_whole_object`: an absent field is
defaulted, a present partial object passes through. -/
theorem suggestedScores_default_whole_object_witness :
    (openaiValidate emptyRaw).suggestedScores = defaultSuggestedScores ∧
    (geminiValidate sparseRaw).suggestedScores = [("technicalSkills", 8)] :=
  ⟨((suggestedScores_default_whole_object emptyRaw).1 rfl).1,
   ((suggestedScores_default_whole_object sparseRaw).2 _ rfl).2⟩

/-- The fields the spec's search step matches against: every present
field (name, email, phone, linkedin, github, note names), without the
empty-string pruning that `.filter(Boolean)` additionally performs in the
code (an empty string cannot contain a non-empty term, so the two agree
on any non-empty search). -/
def presentSearchFields (c : Candidate) : List String :=
  ([some c.name, some c.email, c.phone, c.linkedin, c.github] ++
    c.documents.notes.map fun n => some n.name).filterMap id

/-- Modelled from the spec (section 4.2, filtering step 2): keep a
candidate iff the lowercased term is a substring of some present
searchable field, case-insensitively. -/
def specSearchMatch (term : String) (c : Candidate) : Bool :=
  (presentSearchFields c).any fun f => jsIncludes (jsToLower f) (jsToLower term)

/-- Lower-casing a non-empty string gives a non-empty string. -/
theorem jsToLower_ne_empty {t : String} (h : t ≠ "") : jsToLower t ≠ "" := by
  intro hc
  apply h
  have h2 := congrArg String.data hc
  rcases t with ⟨_ | ⟨c, cs⟩⟩
  · rfl
  · simp [jsToLower] at h2

/-- The empty string contains no non-empty substring. -/
theorem jsIncludes_empty (sub : String) (h : sub ≠ "") :
    jsIncludes "" sub = false := by
  rw [jsIncludes]
  rcases hd : sub.data with _ | ⟨c, cs⟩
  · exact absurd (String.ext hd) h
  · rfl

/-- C6: for every candidate collection and non-empty search term, the
search filter keeps exactly the candidates for which the lowercased term
is a substring of at least one of name, email, phone, LinkedIn URL, GitHub
URL, or any note's display name; the comparison is case-insensitive and
absent optional fields are simply excluded from the match set. -/
theorem searchFilter_keeps_exactly_matches (l : List Candidate) (t : String)
    (h : t ≠ "") :
    applySearchFilter (some t) l = l.filter (specSearchMatch t) := by
  show (if t = "" then l else l.filter (matchesKeyword (jsToLower t))) = _
  rw [if_neg h]
  apply List.filter_congr
  intro c _
  rw [matchesKeyword, specSearchMatch,
    show searchableFields c =
      (presentSearchFields c).filter (fun s => decide (s ≠ "")) from rfl,
    List.any_filter]
  congr 1
  funext f
  by_cases hf : f = ""
  · subst hf
    rw [show jsToLower "" = "" from rfl,
      jsIncludes_empty _ (jsToLower_ne_empty h)]
    simp
  · simp [hf]

/-- A note document whose display name contains "Boo". -/
def booNote : DocumentInfo :=
  { id := "n1", name := "Interview-Boo.pdf", url := "u", type := "pdf",
    uploadedAt := 0, aiAnalysis := none }

/-- A candidate whose only field matching "boo" is a note's display name. -/
def noteOnlyCandidate : Candidate :=
  { id := "c1", name := "Alice", email := "alice@example.com", phone := none,
    linkedin := none, github := none, pictureUrl := none, starRating := 0,
    status := .active, createdAt := 0, updatedAt := 0, scores := [],
    overallScore := 0, documents := { emptyDocs with notes := [booNote] } }

/-- Witness for `searchFilter_keeps_exactly_matches`: the term "boo"
matches only a note's name, and the candidate is still kept. -/
theorem searchFilter_keeps_exactly_matches_witness :
    ("boo" : String) ≠ "" ∧
    applySearchFilter (some "boo") [noteOnlyCandidate] = [noteOnlyCandidate] := by
  refine ⟨by decide, ?_⟩
  rw [searchFilter_keeps_exactly_matches _ _ (by decide)]
  decide

/-! ## Client-side sort: missing-value placement (C3) and totality (C4) -/

/-- Is a resolved value the missing sentinel source (`undefined`/`null`)? -/
def isMissingVal : JsonVal → Bool
  | .undef => true
  | .null => true
  | _ => false

/-- Is a resolved value a real (finite) number? -/
def isNumVal : JsonVal → Bool
  | .num _ => true
  | _ => false

/-- A resolved value that is a number or missing. -/
def numOrMissing (v : JsonVal) : Bool := isNumVal v || isMissingVal v

/-- Values the JS guard `fieldA && typeof fieldA === 'object'` admits for
indexing: truthy objects and arrays. -/
def isIndexable : JsonVal → Bool
  | .obj _ => true
  | .arr _ => true
  | _ => false

/-- The values an ascending-direction comparator operand can take once a
number-or-missing value has been sentinelized: `-Infinity` or a number. -/
def ascSentinel (v : JsonVal) : Prop := v = .ninf ∨ ∃ q, v = .num q

/-- The values a descending-direction comparator operand can take once a
number-or-missing value has been sentinelized: `+Infinity` or a number. -/
def descSentinel (v : JsonVal) : Prop := v = .inf ∨ ∃ q, v = .num q

/-- Order key of an ascending-sentinelized value: `-Infinity` is bottom. -/
def akey : JsonVal → WithBot ℚ
  | .num q => (q : WithBot ℚ)
  | _ => ⊥

/-- Order key of a descending-sentinelized value: `+Infinity` is top. -/
def dkey : JsonVal → WithTop ℚ
  | .num q => (q : WithTop ℚ)
  | _ => ⊤

/-- Sentinelizing a number-or-missing value in ascending direction lands
in the `ascSentinel` value set. -/
theorem sentinelize_asc_mem {v : JsonVal} (h : numOrMissing v = true) :
    ascSentinel (sentinelize .asc v) := by
  cases v <;> simp_all [numOrMissing, isNumVal, isMissingVal, sentinelize,
    ascSentinel]

/-- Sentinelizing a number-or-missing value in descending direction lands
in the `descSentinel` value set. -/
theorem sentinelize_desc_mem {v : JsonVal} (h : numOrMissing v = true) :
    descSentinel (sentinelize .desc v) := by
  cases v <;> simp_all [numOrMissing, isNumVal, isMissingVal, sentinelize,
    descSentinel]

/-- On ascending-sentinelized values, the JS `<` agrees with the strict
order of the `WithBot ℚ` key. -/
theorem jsLt_akey {v w : JsonVal} (hv : ascSentinel v) (hw : ascSentinel w) :
    jsLt v w = decide (akey v < akey w) := by
  rcases hv with rfl | ⟨p, rfl⟩ <;> rcases hw with rfl | ⟨q, rfl⟩
  · simp [jsLt, jsToPrimitive, jsToNumber, jnumLt, akey]
  · simp [jsLt, jsToPrimitive, jsToNumber, jnumLt, akey, WithBot.bot_lt_coe]
  · simp [jsLt, jsToPrimitive, jsToNumber, jnumLt, akey]
  · simp [jsLt, jsToPrimitive, jsToNumber, jnumLt, akey, WithBot.coe_lt_coe]

/-- On descending-sentinelized values, the JS `<` agrees with the strict
order of the `WithTop ℚ` key. -/
theorem jsLt_dkey {v w : JsonVal} (hv : descSentinel v) (hw : descSentinel w) :
    jsLt v w = decide (dkey v < dkey w) := by
  rcases hv with rfl | ⟨p, rfl⟩ <;> rcases hw with rfl | ⟨q, rfl⟩
  · simp [jsLt, jsToPrimitive, jsToNumber, jnumLt, dkey]
  · simp [jsLt, jsToPrimitive, jsToNumber, jnumLt, dkey]
  · simp [jsLt, jsToPrimitive, jsToNumber, jnumLt, dkey, WithTop.coe_lt_top]
  · simp [jsLt, jsToPrimitive, jsToNumber, jnumLt, dkey, WithTop.coe_lt_coe]

/-- The `-1 / 1 / 0` comparator pattern is nonpositive exactly when the
first key is ≤ the second. -/
theorem cmp_le_zero_eq {β : Type} [LinearOrder β] (x y : β) :
    decide ((if decide (x < y) then (-1 : Int) else
      if decide (y < x) then 1 else 0) ≤ 0) = decide (x ≤ y) := by
  rcases lt_trichotomy x y with h | h | h
  · simp [h, le_of_lt h]
  · simp [h, le_of_eq h, lt_irrefl]
  · simp [h, not_lt_of_gt h, not_le_of_gt h]

/-- The ascending comparator is nonpositive exactly when the `WithBot ℚ`
keys are in order. -/
theorem ascCmpRepr {v w : JsonVal} (hv : ascSentinel v) (hw : ascSentinel w) :
    decide (jsCompare .asc v w ≤ 0) = decide (akey v ≤ akey w) := by
  simp only [jsCompare, jsLt_akey hv hw, jsLt_akey hw hv]
  exact cmp_le_zero_eq _ _

/-- The descending comparator is nonpositive exactly when the `WithTop ℚ`
keys are in reverse order. -/
theorem descCmpRepr {v w : JsonVal} (hv : descSentinel v) (hw : descSentinel w) :
    decide (jsCompare .desc v w ≤ 0) = decide (dkey w ≤ dkey v) := by
  simp only [jsCompare, jsLt_dkey hv hw, jsLt_dkey hw hv]
  exact cmp_le_zero_eq _ _

/-- On number-or-missing resolved values, the ascending sort relation is
represented by the `WithBot ℚ` key order. -/
theorem sortLE_asc_repr (f : String) (a b : Candidate)
    (ha : numOrMissing (resolvedValue a f) = true)
    (hb : numOrMissing (resolvedValue b f) = true) :
    sortLE ⟨f, .asc⟩ a b =
      decide (akey (sentinelize .asc (resolvedValue a f)) ≤
        akey (sentinelize .asc (resolvedValue b f))) := by
  simpa [sortLE] using ascCmpRepr (sentinelize_asc_mem ha) (sentinelize_asc_mem hb)

/-- On number-or-missing resolved values, the descending sort relation is
represented by the dual `WithTop ℚ` key order. -/
theorem sortLE_desc_repr (f : String) (a b : Candidate)
    (ha : numOrMissing (resolvedValue a f) = true)
    (hb : numOrMissing (resolvedValue b f) = true) :
    sortLE ⟨f, .desc⟩ a b =
      decide (OrderDual.toDual (dkey (sentinelize .desc (resolvedValue a f))) ≤
        OrderDual.toDual (dkey (sentinelize .desc (resolvedValue b f)))) := by
  have h1 : sortLE ⟨f, .desc⟩ a b =
      decide (dkey (sentinelize .desc (resolvedValue b f)) ≤
        dkey (sentinelize .desc (resolvedValue a f))) := by
    simpa [sortLE] using
      descCmpRepr (sentinelize_desc_mem ha) (sentinelize_desc_mem hb)
  rw [h1]
  exact decide_eq_decide.mpr OrderDual.toDual_le_toDual.symm

/-- When a comparator relation is represented by a key into a linear order
on a value set containing the whole input list, the output of `mergeSort`
is pairwise related. -/
theorem mergeSort_key_pairwise {α β : Type} [LinearOrder β]
    (le : α → α → Bool) (P : α → Prop) (key : α → β)
    (hrep : ∀ a b, P a → P b → le a b = decide (key a ≤ key b))
    (l : List α) (hl : ∀ c ∈ l, P c) :
    (l.mergeSort le).Pairwise fun a b => le a b = true := by
  let le' : {x : α // P x} → {x : α // P x} → Bool := fun a b => le a.val b.val
  have htrans : ∀ a b c : {x : α // P x}, le' a b → le' b c → le' a c := by
    intro a b c hab hbc
    simp only [le', hrep _ _ a.2 b.2, decide_eq_true_eq] at hab
    simp only [le', hrep _ _ b.2 c.2, decide_eq_true_eq] at hbc
    simp only [le', hrep _ _ a.2 c.2, decide_eq_true_eq]
    exact le_trans hab hbc
  have htotal : ∀ a b : {x : α // P x}, le' a b || le' b a := by
    intro a b
    simp only [le', hrep _ _ a.2 b.2, hrep _ _ b.2 a.2, Bool.or_eq_true,
      decide_eq_true_eq]
    exact le_total _ _
  let l' : List {x : α // P x} := l.attach.map fun x => ⟨x.val, hl x.val x.2⟩
  have hmap : l'.map Subtype.val = l := by
    simp [l', List.map_map]
  have hPW : (l'.mergeSort le').Pairwise fun a b => le' a b = true :=
    List.sorted_mergeSort htrans htotal l'
  have hms : l.mergeSort le = (l'.mergeSort le').map Subtype.val := by
    rw [← hmap]
    exact (@List.map_mergeSort _ _ le' le Subtype.val l' fun a _ b _ => rfl).symm
  rw [hms]
  exact List.pairwise_map.mpr hPW

/-- A pairwise-ordered list whose elements fall into two classes, where an
element of the second class is never related to one of the first, splits
as a first-class segment followed by a second-class segment. -/
theorem pairwiseSplitTwo {α : Type} (P Q : α → Prop) (le : α → α → Bool) :
    ∀ out : List α, out.Pairwise (fun a b => le a b = true) →
      (∀ x ∈ out, P x ∨ Q x) →
      (∀ x y, Q x → P y → le x y = false) →
      ∃ ms rs, out = ms ++ rs ∧ (∀ c ∈ ms, P c) ∧ (∀ c ∈ rs, Q c)
  | [], _, _, _ => ⟨[], [], rfl, by simp, by simp⟩
  | x :: xs, hpw, hcl, hno => by
    rcases List.pairwise_cons.mp hpw with ⟨hx, hxs⟩
    rcases hcl x (by simp) with hP | hQ
    · obtain ⟨ms, rs, heq, hms, hrs⟩ :=
        pairwiseSplitTwo P Q le xs hxs (fun y hy => hcl y (by simp [hy])) hno
      refine ⟨x :: ms, rs, by simp [heq], ?_, hrs⟩
      intro c hc
      rcases List.mem_cons.mp hc with rfl | hc
      · exact hP
      · exact hms c hc
    · refine ⟨[], x :: xs, rfl, by simp, ?_⟩
      intro c hc
      rcases List.mem_cons.mp hc with rfl | hc
      · exact hQ
      · rcases hcl c (by simp [hc]) with hPc | hQc
        · exact absurd (hx c hc) (by simp [hno x c hQ hPc])
        · exact hQc

/-- A real-number value is never `≤`-related to a missing value by the
sort comparator, in either direction: the sentinel is strictly smaller
(ascending) or strictly larger (descending) than every number. -/
theorem sortLE_num_missing_false (so : SortOption) (x y : Candidate)
    (hx : isNumVal (resolvedValue x so.field) = true)
    (hy : isMissingVal (resolvedValue y so.field) = true) :
    sortLE so x y = false := by
  obtain ⟨q, hq⟩ : ∃ q, resolvedValue x so.field = .num q := by
    cases hrx : resolvedValue x so.field <;> simp_all [isNumVal]
  have hy' : resolvedValue y so.field = .undef ∨
      resolvedValue y so.field = .null := by
    cases hry : resolvedValue y so.field <;> simp_all [isMissingVal]
  rcases so with ⟨f, dir⟩
  cases dir <;> rcases hy' with hy' | hy' <;>
    simp [sortLE, hq, hy', sentinelize, jsCompare, jsLt, jsToPrimitive,
      jsToNumber, jnumLt]

/-- A two-element merge sort compares the pair once. -/
theorem mergeSort_pair {α : Type} (le : α → α → Bool) (a b : α) :
    [a, b].mergeSort le = if le a b then [a, b] else [b, a] := by
  simp [List.mergeSort, List.merge]

/-- A non-indexable value is left unchanged by a path step. -/
theorem resolveStep_id {v : JsonVal} (h : isIndexable v = false) (p : String) :
    resolveStep v p = v := by
  cases v <;> simp_all [isIndexable, resolveStep]

/-- A candidate whose `scores` object lacks `technicalSkills`. -/
def missingScoreCand : Candidate := candWithScore "m" 0

/-- A candidate whose `scores.technicalSkills` is 5. -/
def typedScoreCand : Candidate :=
  { candWithScore "s" 0 with scores := [("technicalSkills", 5)] }

/-- C3 counterexample: sorting `[scored, missing]` by the nested path
`scores.technicalSkills` places the candidate with the missing value
FIRST, in both the ascending and the descending direction -- not after
the candidates with a real value as claimed.  (The comparator maps the
missing value to `-Infinity` when ascending and `+Infinity` when
descending, both of which sort to the front.) -/
theorem clientSort_missing_first_cex :
    isMissingVal (resolvedValue missingScoreCand "scores.technicalSkills") =
      true ∧
    isNumVal (resolvedValue typedScoreCand "scores.technicalSkills") = true ∧
    applyClientSort (some ⟨"scores.technicalSkills", SortDir.asc⟩)
        [typedScoreCand, missingScoreCand] =
      [missingScoreCand, typedScoreCand] ∧
    applyClientSort (some ⟨"scores.technicalSkills", SortDir.desc⟩)
        [typedScoreCand, missingScoreCand] =
      [missingScoreCand, typedScoreCand] := by
  refine ⟨rfl, rfl, ?_, ?_⟩
  · have hs : applyClientSort (some ⟨"scores.technicalSkills", SortDir.asc⟩)
        [typedScoreCand, missingScoreCand] =
        [typedScoreCand, missingScoreCand].mergeSort
          (sortLE ⟨"scores.technicalSkills", SortDir.asc⟩) := by
      simp only [applyClientSort]
      rw [if_neg (by decide)]
    rw [hs, mergeSort_pair]
    decide
  · have hs : applyClientSort (some ⟨"scores.technicalSkills", SortDir.desc⟩)
        [typedScoreCand, missingScoreCand] =
        [typedScoreCand, missingScoreCand].mergeSort
          (sortLE ⟨"scores.technicalSkills", SortDir.desc⟩) := by
      simp only [applyClientSort]
      rw [if_neg (by decide)]
    rw [hs, mergeSort_pair]
    decide

/-- C3 amended: over any collection whose resolved sort-field values are
numbers or missing, the client-side sort places every candidate with a
missing (`undefined`/`null`) value BEFORE all candidates with a real
value, in both directions: the output splits as a missing segment
followed by a real-valued segment. -/
theorem clientSort_missing_placed_first (l : List Candidate) (so : SortOption)
    (hf : so.field ∉ simpleSortFields)
    (h : ∀ c ∈ l, numOrMissing (resolvedValue c so.field) = true) :
    ∃ ms rs, applyClientSort (some so) l = ms ++ rs ∧
      (∀ c ∈ ms, isMissingVal (resolvedValue c so.field) = true) ∧
      (∀ c ∈ rs, isNumVal (resolvedValue c so.field) = true) := by
  have hsort : applyClientSort (some so) l = l.mergeSort (sortLE so) := by
    simp only [applyClientSort]
    rw [if_neg hf]
  have hpw : (l.mergeSort (sortLE so)).Pairwise
      fun a b => sortLE so a b = true := by
    rcases so with ⟨f, dir⟩
    cases dir
    · exact mergeSort_key_pairwise (sortLE ⟨f, .asc⟩)
        (fun c => numOrMissing (resolvedValue c f) = true)
        (fun c => akey (sentinelize .asc (resolvedValue c f)))
        (fun a b ha hb => sortLE_asc_repr f a b ha hb) l h
    · exact mergeSort_key_pairwise (sortLE ⟨f, .desc⟩)
        (fun c => numOrMissing (resolvedValue c f) = true)
        (fun c => OrderDual.toDual (dkey (sentinelize .desc (resolvedValue c f))))
        (fun a b ha hb => sortLE_desc_repr f a b ha hb) l h
  rw [hsort]
  refine pairwiseSplitTwo
    (fun c => isMissingVal (resolvedValue c so.field) = true)
    (fun c => isNumVal (resolvedValue c so.field) = true)
    (sortLE so) _ hpw ?_ ?_
  · intro x hx
    have hm := h x (List.mem_mergeSort.mp hx)
    simp only [numOrMissing, Bool.or_eq_true] at hm
    exact hm.symm
  · intro x y hQ hP
    exact sortLE_num_missing_false so x y hQ hP

/-- Witness for `clientSort_missing_placed_first`: the concrete
two-candidate collection sorted ascending by `scores.technicalSkills`. -/
theorem clientSort_missing_placed_first_witness :
    ∃ ms rs,
      applyClientSort (some ⟨"scores.technicalSkills", SortDir.asc⟩)
          [typedScoreCand, missingScoreCand] = ms ++ rs ∧
      (∀ c ∈ ms,
        isMissingVal (resolvedValue c "scores.technicalSkills") = true) ∧
      (∀ c ∈ rs,
        isNumVal (resolvedValue c "scores.technicalSkills") = true) :=
  clientSort_missing_placed_first [typedScoreCand, missingScoreCand]
    ⟨"scores.technicalSkills", SortDir.asc⟩ (by decide) (by decide)

/-- C4 counterexample: the malformed dot-path `overallScore.x` (whose
first segment resolves to a number, not an object) does NOT resolve to the
missing sentinel: the walk keeps the number 5, and sorting by that path
actually orders candidates by `overallScore` instead of treating them all
as missing (which, by stability, would have left the input order
unchanged). -/
theorem resolvePath_malformed_cex :
    resolvedValue (candWithScore "e" 5) "overallScore.x" = JsonVal.num 5 ∧
    isMissingVal (resolvedValue (candWithScore "e" 5) "overallScore.x") =
      false ∧
    applyClientSort (some ⟨"overallScore.x", SortDir.asc⟩)
        [candWithScore "d" 5, candWithScore "e" 3] =
      [candWithScore "e" 3, candWithScore "d" 5] := by
  refine ⟨rfl, rfl, ?_⟩
  have hs : applyClientSort (some ⟨"overallScore.x", SortDir.asc⟩)
      [candWithScore "d" 5, candWithScore "e" 3] =
      [candWithScore "d" 5, candWithScore "e" 3].mergeSort
        (sortLE ⟨"overallScore.x", SortDir.asc⟩) := by
    simp only [applyClientSort]
    rw [if_neg (by decide)]
  rw [hs, mergeSort_pair]
  decide

/-- C4 amended: the client-side filter/sort is total -- for every sort
option the sorted output is a permutation of the input (nothing fails or
is dropped) -- and a dot-path step applied to a non-object value leaves
that value unchanged, so a malformed path resolves to the value at its
longest resolvable prefix (the missing sentinel arises only when that
value is `undefined`/`null`). -/
theorem clientSort_total_resolve :
    (∀ (so : Option SortOption) (l : List Candidate),
      (applyClientSort so l).Perm l) ∧
    (∀ (v : JsonVal) (parts : List String), isIndexable v = false →
      resolvePath v parts = v) := by
  constructor
  · intro so l
    rcases so with _ | s
    · exact List.Perm.refl l
    · show (if s.field ∈ simpleSortFields then l
        else l.mergeSort (sortLE s)).Perm l
      split_ifs
      · exact List.Perm.refl l
      · exact List.mergeSort_perm l _
  · intro v parts h
    induction parts with
    | nil => rfl
    | cons p ps ih =>
      show resolvePath (resolveStep v p) ps = v
      rw [resolveStep_id h]
      exact ih

/-- Witness for `clientSort_total_resolve`: concrete instances of both
conjuncts. -/
theorem clientSort_total_resolve_witness :
    (applyClientSort (some ⟨"overallScore.x", SortDir.asc⟩)
      [candWithScore "w" 1]).Perm [candWithScore "w" 1] ∧
    isIndexable (JsonVal.num 5) = false ∧
    resolvePath (JsonVal.num 5) ["x"] = JsonVal.num 5 :=
  ⟨clientSort_total_resolve.1 _ _, rfl,
   clientSort_total_resolve.2 (JsonVal.num 5) ["x"] rfl⟩
